import Mathlib

/-!
Verification of the bor witness-exchange subsystem: the witness codec with
optional gzip framing and compression metrics (core/stateless), and the paged
witness request pipeline of the `eth` peer adapter (RequestWitnesses,
receiveWitnessPage, reconstructWitness, buildWitnessRequests).

Bytes are modelled as natural numbers, byte strings as `List Nat`, witness
hashes as natural numbers.  Go maps keyed by hash are modelled as functions
`Nat → _`.  The process-wide metric registry is modelled as an explicit record
threaded through the codec operations.  A Go `map[string]struct{}` (a finite
set of strings with unique keys) is modelled as a `List Bytes` whose
enumeration order stands for the arbitrary map iteration order; the map-key
uniqueness invariant is the `Nodup` hypothesis carried by the theorems, and
"same set of state entries" is equality of the corresponding `Finset`s.
-/

namespace BorWitness

/-- A byte string: the model of Go `[]byte`. -/
abbrev Bytes := List Nat

/-- The model of `common.Hash` (opaque 32-byte identifier). -/
abbrev WHash := Nat

/-- The model of `stateless.Witness`: an opaque context header, an ordered
list of headers and the key enumeration of the state-node set (Go's
`map[string]struct{}`).  Headers are kept as opaque serialised byte strings
since the core never inspects them. -/
structure Witness where
  context : Bytes
  headers : List Bytes
  state : List Bytes
deriving DecidableEq

/-- The model of `stateless.extWitness`: the wire form, where the state set
has been flattened to a slice of byte strings. -/
structure ExtWitness where
  context : Bytes
  headers : List Bytes
  state : List Bytes
deriving DecidableEq

/-- `Witness.toExtWitness`: emit the state keys in map-iteration order. -/
def Witness.toExtWitness (w : Witness) : ExtWitness :=
  { context := w.context, headers := w.headers, state := w.state }

/-- `Witness.fromExtWitness`: rebuild the state map from the wire slice;
inserting every slice element into a fresh map keeps one copy of each key. -/
def Witness.fromExtWitness (ext : ExtWitness) : Witness :=
  { context := ext.context, headers := ext.headers, state := ext.state.dedup }

/-- Modelled from the spec: `Witness.Optimize` (not under src/; §4.1
"optimize(witness): removes empty-string state entries before encoding when
deduplication is configured", pinned by TestWitnessOptimization). -/
def Witness.Optimize (w : Witness) : Witness :=
  { w with state := w.state.filter (fun bs => !bs.isEmpty) }

/-! ### Canonical serialisation

Modelled from the spec: the `rlp` package is not under src/; the spec only
requires `encode(witness) → bytes` to be "the canonical serialisation" with
`rlp.DecodeBytes` as its exact inverse that fails on malformed input
(§4.1).  We realise it as an injective length-prefixed serialisation of
`ExtWitness` with a total decoder that consumes the input exactly. -/

/-- Prefix-free encoding of a natural number (length field). -/
def encNat (n : Nat) : Bytes := List.replicate n 1 ++ [0]

/-- Length-prefixed encoding of one byte string. -/
def encBytesField (bs : Bytes) : Bytes := encNat bs.length ++ bs

/-- Length-prefixed encoding of a list of byte strings. -/
def encListField (xs : List Bytes) : Bytes :=
  encNat xs.length ++ (xs.map encBytesField).flatten

/-- Canonical serialisation of the wire-form witness (the model of
`rlp.Encode(w.toExtWitness())`). -/
def encodeExtWitness (e : ExtWitness) : Bytes :=
  encBytesField e.context ++ encListField e.headers ++ encListField e.state

/-- Decoder for `encNat`; returns the value and the remaining input. -/
def decNat : Bytes → Option (Nat × Bytes)
  | [] => none
  | 0 :: rest => some (0, rest)
  | 1 :: rest => (decNat rest).map (fun p => (p.1 + 1, p.2))
  | _ :: _ => none

/-- Consume exactly `n` bytes, failing when fewer remain. -/
def decTake (n : Nat) (bs : Bytes) : Option (Bytes × Bytes) :=
  if bs.length < n then none else some (bs.take n, bs.drop n)

/-- Decoder for `encBytesField`. -/
def decBytesField (bs : Bytes) : Option (Bytes × Bytes) :=
  (decNat bs).bind fun p => decTake p.1 p.2

/-- Decode `n` consecutive byte-string fields. -/
def decListFieldAux : Nat → Bytes → Option (List Bytes × Bytes)
  | 0, bs => some ([], bs)
  | n + 1, bs =>
    (decBytesField bs).bind fun p =>
      (decListFieldAux n p.2).map fun q => (p.1 :: q.1, q.2)

/-- Decoder for `encListField`. -/
def decListField (bs : Bytes) : Option (List Bytes × Bytes) :=
  (decNat bs).bind fun p => decListFieldAux p.1 p.2

/-- Decoder for `encodeExtWitness`; insists on exact consumption, the model
of `rlp.DecodeBytes` which rejects trailing input. -/
def decodeExtWitness (bs : Bytes) : Option ExtWitness :=
  (decBytesField bs).bind fun c =>
    (decListField c.2).bind fun hs =>
      (decListField hs.2).bind fun st =>
        if st.2 = [] then some ⟨c.1, hs.1, st.1⟩ else none

/-- The model of `rlp.DecodeBytes(bytes, wit)` for a `*stateless.Witness`
receiver (its `DecodeRLP` decodes an `extWitness` and converts it with
`fromExtWitness`). -/
def decodeWitnessRLP (bs : Bytes) : Except String Witness :=
  match decodeExtWitness bs with
  | some ext => .ok (Witness.fromExtWitness ext)
  | none => .error "rlp: malformed witness"

/-! ### Gzip primitive

Modelled from the spec: the compression library is out of scope ("gzip is
assumed available as a primitive with configurable level", §1); we realise it
as a magic-prefixed run-length compressor whose decompressor is its exact
inverse and rejects streams that do not start with the gzip magic bytes. -/

/-- The two gzip magic bytes (0x1f, 0x8b). -/
def gzipMagic : Bytes := [31, 139]

/-- Run-length encode a byte string into (count, byte) pairs. -/
def rle : Bytes → List (Nat × Nat)
  | [] => []
  | b :: rest =>
    match rle rest with
    | [] => [(1, b)]
    | (n, c) :: t => if c = b then (n + 1, b) :: t else (1, b) :: (n, c) :: t

/-- Expand (count, byte) pairs back into a byte string. -/
def unrle (ps : List (Nat × Nat)) : Bytes :=
  (ps.map (fun p => List.replicate p.1 p.2)).flatten

/-- Serialise the run pairs as a flat stream. -/
def flattenPairs (ps : List (Nat × Nat)) : Bytes :=
  (ps.map (fun p => [p.1, p.2])).flatten

/-- Parse a flat stream back into run pairs; odd-length streams are
malformed. -/
def readPairs : Bytes → Option (List (Nat × Nat))
  | [] => some []
  | n :: b :: t => (readPairs t).map (fun ps => (n, b) :: ps)
  | _ :: [] => none

/-- Modelled from the spec: gzip compression at a given level (the level
affects only speed/size trade-off, never the decompressed content). -/
def gzipCompress (_level : Nat) (data : Bytes) : Bytes :=
  gzipMagic ++ flattenPairs (rle data)

/-- Modelled from the spec: gzip decompression; fails on a stream that does
not carry the gzip framing. -/
def gunzip (bs : Bytes) : Option Bytes :=
  if bs.take 2 = gzipMagic then (readPairs (bs.drop 2)).map unrle else none

/-! ### Compression configuration, metrics and the compressed codec
(core/stateless witness codec, src/unnamed/part_002). -/

/-- `stateless.CompressionConfig`. -/
structure CompressionConfig where
  Enabled : Bool
  Threshold : Nat
  CompressionLevel : Nat
  UseDeduplication : Bool
deriving DecidableEq

/-- `stateless.compressionThreshold` (1 MiB). -/
def compressionThreshold : Nat := 1 * 1024 * 1024

/-- `gzip.BestSpeed`. -/
def gzipBestSpeed : Nat := 1

/-- `stateless.DefaultCompressionConfig`. -/
def DefaultCompressionConfig : CompressionConfig :=
  { Enabled := true, Threshold := compressionThreshold,
    CompressionLevel := gzipBestSpeed, UseDeduplication := true }

/-- The process-wide compression metric registry: the counters and gauges of
part_002 (timers and the float-valued ratio gauge track wall-clock time and
are not modelled). -/
structure Metrics where
  compressionCount : Int
  uncompressedCount : Int
  decompressionCount : Int
  totalOriginalSize : Int
  totalCompressedSize : Int
  spaceSavedBytes : Int
deriving DecidableEq

/-- All counters and gauges at zero (the state after `resetMetrics`). -/
def zeroMetrics : Metrics := ⟨0, 0, 0, 0, 0, 0⟩

/-- The integer-valued entries of `stateless.CompressionStats` (the
float-valued timing/rate entries are not modelled). -/
structure StatsView where
  compression_count : Int
  uncompressed_count : Int
  total_witnesses : Int
  total_original_size : Int
  total_compressed_size : Int
  space_saved_bytes : Int
  decompression_count : Int
deriving DecidableEq

/-- `stateless.CompressionStats`, restricted to its integer entries. -/
def CompressionStats (m : Metrics) : StatsView :=
  { compression_count := m.compressionCount,
    uncompressed_count := m.uncompressedCount,
    total_witnesses := m.compressionCount + m.uncompressedCount,
    total_original_size := m.totalOriginalSize,
    total_compressed_size := m.totalCompressedSize,
    space_saved_bytes := m.spaceSavedBytes,
    decompression_count := m.decompressionCount }

/-- `Witness.EncodeRLP`: optimizes the witness when deduplication is
configured, then emits the canonical serialisation.  Returns the bytes and
the (possibly optimized in place) witness. -/
def Witness.EncodeRLP (cfg : CompressionConfig) (w : Witness) : Bytes × Witness :=
  let w' := if cfg.UseDeduplication then w.Optimize else w
  (encodeExtWitness w'.toExtWitness, w')

/-- The shared tail of `EncodeCompressed`: count an uncompressed witness and
emit marker 0x00 followed by the raw serialisation. -/
def encodeUncompressedOut (m : Metrics) (rlpData : Bytes) : Bytes × Metrics :=
  (0 :: rlpData,
   { m with uncompressedCount := m.uncompressedCount + 1,
            totalCompressedSize := m.totalCompressedSize + rlpData.length })

/-- `Witness.EncodeCompressed` (part_002 lines 198-268): serialise, track the
original size, compress when enabled and above threshold, keep the compressed
form only when it is strictly smaller, and frame the output with a one-byte
marker (0x01 compressed / 0x00 uncompressed). -/
def Witness.EncodeCompressed (cfg : CompressionConfig) (m : Metrics) (w : Witness) :
    Bytes × Metrics × Witness :=
  let p := w.EncodeRLP cfg
  let rlpData := p.1
  let originalSize := rlpData.length
  let m1 := { m with totalOriginalSize := m.totalOriginalSize + originalSize }
  if cfg.Enabled ∧ rlpData.length > cfg.Threshold then
    let compressedData := gzipCompress cfg.CompressionLevel rlpData
    if compressedData.length < rlpData.length then
      let m2 := { m1 with
        compressionCount := m1.compressionCount + 1,
        totalCompressedSize := m1.totalCompressedSize + compressedData.length,
        spaceSavedBytes := m1.spaceSavedBytes +
          ((originalSize : Int) - (compressedData.length : Int)) }
      (1 :: compressedData, m2, p.2)
    else
      let q := encodeUncompressedOut m1 rlpData
      (q.1, q.2, p.2)
  else
    let q := encodeUncompressedOut m1 rlpData
    (q.1, q.2, p.2)

/-- The body of `DecodeCompressed` after the marker byte has been consumed:
gunzip when the marker was 0x01, then decode the canonical form. -/
def decodeCompressedPayload (m : Metrics) (compressed : Bool) (witnessData : Bytes) :
    Except String (Witness × Metrics) :=
  if compressed then
    match gunzip witnessData with
    | none => .error "gzip: malformed stream"
    | some rlpData =>
      let m1 := { m with decompressionCount := m.decompressionCount + 1 }
      match decodeExtWitness rlpData with
      | some ext => .ok (Witness.fromExtWitness ext, m1)
      | none => .error "rlp: malformed witness"
  else
    match decodeExtWitness witnessData with
    | some ext => .ok (Witness.fromExtWitness ext, m)
    | none => .error "rlp: malformed witness"

/-- `Witness.DecodeCompressed` (part_002 lines 271-313): reject empty input,
read `data[0]` as the compression marker (`compressed := data[0] == 0x01`)
and decode `data[1:]` as the payload. -/
def Witness.DecodeCompressed (m : Metrics) (data : Bytes) :
    Except String (Witness × Metrics) :=
  match data with
  | [] => .error "empty data"
  | marker :: witnessData =>
    decodeCompressedPayload m (decide (marker = 1)) witnessData

/-! ### Paged witness request pipeline (eth peer adapter,
src/unnamed/part_004). -/

/-- `wit.WitnessPageRequest`. -/
structure WitnessPageRequest where
  Hash : WHash
  Page : Nat
deriving DecidableEq

/-- `wit.WitnessPageResponse`. -/
structure WitnessPageResponse where
  Hash : WHash
  Page : Nat
  TotalPages : Nat
  Data : Bytes
deriving DecidableEq

/-- Constants of part_004 lines 34-39. -/
def DefaultPagesRequestPerWitness : Nat := 1

/-- Maximum in-flight sub-requests to one peer. -/
def DefaultConcurrentRequestsPerPeer : Nat := 5

/-- Capacity of the fan-in response channel. -/
def DefaultConcurrentResponsesHandled : Nat := 10

/-- Per-page retry ceiling. -/
def DefaultMaxPagesRequestRetries : Nat := 2

/-- Strict ordering key used by `reconstructWitness`'s `sort.Slice` less
function: `pages[i].Page < pages[j].Page`. -/
def pageLt (a b : WitnessPageResponse) : Prop := a.Page < b.Page

/-- Non-strict companion of `pageLt`. -/
def pageLe (a b : WitnessPageResponse) : Prop := a.Page ≤ b.Page

/-- Insert one page into a list sorted by ascending page index. -/
def insertPage (p : WitnessPageResponse) :
    List WitnessPageResponse → List WitnessPageResponse
  | [] => [p]
  | q :: t => if p.Page < q.Page then p :: q :: t else q :: insertPage p t

/-- Sort pages by ascending page index: the model of
`sort.Slice(pages, less = pages[i].Page < pages[j].Page)`. -/
def sortPages : List WitnessPageResponse → List WitnessPageResponse
  | [] => []
  | p :: t => insertPage p (sortPages t)

/-- `ethPeer.reconstructWitness` (part_004 lines 341-358): sort the received
pages into ascending page-index order, concatenate their payloads, then
RLP-decode the concatenation into a witness. -/
def reconstructWitness (pages : List WitnessPageResponse) : Except String Witness :=
  let sorted := sortPages pages
  let reconstructedWitnessRLPBytes := (sorted.map (fun p => p.Data)).flatten
  decodeWitnessRLP reconstructedWitnessRLPBytes

/-- The page list a peer produces by splitting a byte sequence into the
given contiguous chunks: page `i` carries chunk `i` and reports the total
page count. -/
def pagesAux (h : WHash) (total : Nat) : Nat → List Bytes → List WitnessPageResponse
  | _, [] => []
  | i, c :: t => ⟨h, i, total, c⟩ :: pagesAux h total (i + 1) t

/-- All pages of one witness hash, splitting `chunks` in order. -/
def pagesOfChunks (h : WHash) (chunks : List Bytes) : List WitnessPageResponse :=
  pagesAux h chunks.length 0 chunks

/-! ### Reception state of the adapter goroutine (part_004 lines 204-339). -/

/-- The per-batch reception state: the `receivedWitPages` and
`reconstructedWitness` maps of the adapter goroutine and the shared
`witTotalPages` map (`Option` models the two-valued Go map lookup). -/
structure RecvState where
  receivedWitPages : WHash → List WitnessPageResponse
  reconstructedWitness : WHash → Option Witness
  witTotalPages : WHash → Option Nat

/-- The reception state at the start of a batch: all maps empty. -/
def emptyRecvState : RecvState :=
  { receivedWitPages := fun _ => [],
    reconstructedWitness := fun _ => none,
    witTotalPages := fun _ => none }

/-- One iteration of the page loop of `receiveWitnessPage` (part_004 lines
311-337).  A zero-byte payload is skipped (`continue`).  Otherwise the page
is appended to `receivedWitPages[hash]`; when the received count equals the
*arriving page's* `TotalPages` the witness is reconstructed (an error ends
the call, leaving the already-performed append in place); finally
`witTotalPages[hash]` is overwritten with the arriving page's value.  The
returned flag reports whether the iteration ended the call with an error. -/
def processPage (st : RecvState) (page : WitnessPageResponse) : RecvState × Bool :=
  if page.Data.length = 0 then (st, false)
  else
    let pages := st.receivedWitPages page.Hash ++ [page]
    let st1 : RecvState :=
      { st with receivedWitPages :=
          fun h => if h = page.Hash then pages else st.receivedWitPages h }
    if pages.length = page.TotalPages then
      match reconstructWitness pages with
      | .error _ => (st1, true)
      | .ok w =>
        ({ st1 with
            reconstructedWitness :=
              fun h => if h = page.Hash then some w else st.reconstructedWitness h,
            witTotalPages :=
              fun h => if h = page.Hash then some page.TotalPages
                       else st.witTotalPages h }, false)
    else
      ({ st1 with
          witTotalPages :=
            fun h => if h = page.Hash then some page.TotalPages
                     else st.witTotalPages h }, false)

/-- The page loop of `receiveWitnessPage` over the pages of one response;
stops at the first page whose processing returns an error. -/
def processPages (st : RecvState) : List WitnessPageResponse → RecvState × Bool
  | [] => (st, false)
  | p :: t =>
    let q := processPage st p
    if q.2 then (q.1, true) else processPages q.1 t

/-! ### Retry bookkeeping (part_004 lines 120-123, 282-304, 400-421). -/

/-- `witReqRetryCount`. -/
structure WitReqRetryCount where
  FailCount : Nat
  ShouldRetryAgain : Bool
deriving DecidableEq

/-- The deferred failure handler of `receiveWitnessPage` (lines 282-304) on
one failed `(hash, page)` entry: increment the fail count and set the retry
flag when the incremented count stays within `DefaultMaxPagesRequestRetries`. -/
def recordFailure (rc : WitReqRetryCount) : WitReqRetryCount :=
  let fc := rc.FailCount + 1
  { FailCount := fc,
    ShouldRetryAgain :=
      if fc ≤ DefaultMaxPagesRequestRetries then true else rc.ShouldRetryAgain }

/-- The retry pass of `buildWitnessRequests` (lines 400-421) on one failed
entry: resubmit the page exactly when its `ShouldRetryAgain` flag is set,
clearing the flag.  The returned flag reports whether a resubmission
happened. -/
def retryPass (rc : WitReqRetryCount) : WitReqRetryCount × Bool :=
  if rc.ShouldRetryAgain then ({ rc with ShouldRetryAgain := false }, true)
  else (rc, false)

/-- One failure/reschedule cycle for a page: the deferred handler records
the failure, then the next scheduling pass consumes the retry flag. -/
def failCycle (rc : WitReqRetryCount) : WitReqRetryCount × Bool :=
  retryPass (recordFailure rc)

/-- Entry state and resubmission decisions after `n` consecutive failures of
one page, starting from the zero value of the Go map entry. -/
def failTrace : Nat → WitReqRetryCount × List Bool
  | 0 => (⟨0, false⟩, [])
  | n + 1 =>
    let q := failTrace n
    let c := failCycle q.1
    (c.1, q.2 ++ [c.2])

/-- The batch-wide failure map together with the reception state. -/
structure BatchState where
  recv : RecvState
  failedRequests : WHash → Nat → WitReqRetryCount

/-- The batch state at the start of a batch. -/
def emptyBatchState : BatchState :=
  { recv := emptyRecvState, failedRequests := fun _ _ => ⟨0, false⟩ }

/-- Record a failure for every `(hash, page)` of the failed request (the
loop of the deferred handler, lines 285-295). -/
def markRequestFailed (fr : WHash → Nat → WitReqRetryCount) :
    List WitnessPageRequest → WHash → Nat → WitReqRetryCount
  | [], h, p => fr h p
  | r :: t, h, p =>
    markRequestFailed
      (fun h' p' => if h' = r.Hash ∧ p' = r.Page then recordFailure (fr h' p')
                    else fr h' p') t h p

/-- `receiveWitnessPage` (part_004 lines 267-339) on one fanned-in
(request, response) pair: a response of an unexpected type (`Res` not a
`WitnessPacketRLPPacket`, modelled by `none`) fails the request, otherwise
the page loop runs; when the call ends with an error the deferred handler
marks every requested `(hash, page)` failed.  (The `buildWitnessRequests`
goroutines spawned for scheduling are part of the concurrent scheduler and
are not modelled here.) -/
def receiveWitnessPage (bst : BatchState) (request : List WitnessPageRequest)
    (res : Option (List WitnessPageResponse)) : BatchState :=
  match res with
  | none => { bst with failedRequests := markRequestFailed bst.failedRequests request }
  | some pages =>
    let q := processPages bst.recv pages
    if q.2 then
      { recv := q.1, failedRequests := markRequestFailed bst.failedRequests request }
    else
      { recv := q.1, failedRequests := bst.failedRequests }

/-! ### Logical request cancellation (part_004 lines 125-151). -/

/-- Closing a Go channel: closing an already-closed channel panics.  The
panic is modelled as the error value. -/
def goCloseChannel (closed : Bool) : Except String Bool :=
  if closed then .error "close of closed channel" else .ok true

/-- Modelled from the spec: `wit.Request.Close` (the peer primitive's
cancellation hook, §4.2; the wit package is not under src/) always delivers
a cancellation and reports no error. -/
def witRequestClose (_r : Unit) : Except String Unit := .ok ()

/-- Close every underlying wit request, stopping at the first error. -/
def closeAllWitReqs : List Unit → Except String Unit
  | [] => .ok ()
  | r :: t =>
    match witRequestClose r with
    | .error e => .error e
    | .ok _ => closeAllWitReqs t

/-- `ethWitRequest`: the embedded `eth.Request` shim is represented by the
closed-state of its `Cancel` channel; the underlying wit requests by the
list of their handles. -/
structure EthWitRequest where
  CancelClosed : Bool
  witReqs : List Unit
deriving DecidableEq

/-- `ethWitRequest.Close` (part_004 lines 135-151): `close(r.Request.Cancel)`
first, then close every underlying wit request. -/
def EthWitRequest.Close (r : EthWitRequest) : Except String EthWitRequest :=
  match goCloseChannel r.CancelClosed with
  | .error e => .error e
  | .ok _ =>
    match closeAllWitReqs r.witReqs with
    | .error e => .error e
    | .ok _ => .ok { r with CancelClosed := true }

/-! ### Metric sequences. -/

/-- The metric registry after a sequence of `EncodeCompressed` calls. -/
def encodeSeq : Metrics → List (CompressionConfig × Witness) → Metrics
  | m, [] => m
  | m, op :: t => encodeSeq ((op.2.EncodeCompressed op.1 m).2.1) t

/-- The metric registry after a sequence of encode/decode round-trips (each
decode consumes the bytes its encode produced). -/
def roundTripSeq : Metrics → List (CompressionConfig × Witness) → Metrics
  | m, [] => m
  | m, op :: t =>
    let p := op.2.EncodeCompressed op.1 m
    match Witness.DecodeCompressed p.2.1 p.1 with
    | .ok q => roundTripSeq q.2 t
    | .error _ => roundTripSeq p.2.1 t

/-- The encode takes the compressed branch: compression enabled, the
serialisation exceeds the threshold, and gzip actually shrinks it. -/
def triggersCompression (cfg : CompressionConfig) (w : Witness) : Prop :=
  cfg.Enabled = true ∧ (w.EncodeRLP cfg).1.length > cfg.Threshold ∧
    (gzipCompress cfg.CompressionLevel (w.EncodeRLP cfg).1).length <
      (w.EncodeRLP cfg).1.length

instance (cfg : CompressionConfig) (w : Witness) :
    Decidable (triggersCompression cfg w) := by
  unfold triggersCompression
  infer_instance

/-- The gauge equation of claim C9. -/
def metricsInv (m : Metrics) : Prop :=
  m.spaceSavedBytes = m.totalOriginalSize - m.totalCompressedSize

/-! ### Theorems. -/

theorem decNat_enc (n : Nat) (rest : Bytes) :
    decNat (encNat n ++ rest) = some (n, rest) := by
  induction n with
  | zero => rfl
  | succ n ih =>
    have h : encNat (n + 1) ++ rest = 1 :: (encNat n ++ rest) := by
      simp [encNat, List.replicate_succ]
    rw [h]
    simp [decNat, ih]

theorem decTake_exact (bs rest : Bytes) :
    decTake bs.length (bs ++ rest) = some (bs, rest) := by
  unfold decTake
  rw [if_neg (by simp)]
  simp [List.take_left, List.drop_left]

theorem decBytesField_enc (bs rest : Bytes) :
    decBytesField (encBytesField bs ++ rest) = some (bs, rest) := by
  unfold decBytesField encBytesField
  rw [List.append_assoc, decNat_enc]
  simp [decTake_exact]

theorem decListFieldAux_enc (xs : List Bytes) (rest : Bytes) :
    decListFieldAux xs.length ((xs.map encBytesField).flatten ++ rest) =
      some (xs, rest) := by
  induction xs generalizing rest with
  | nil => rfl
  | cons x t ih =>
    simp only [List.length_cons, List.map_cons, List.flatten_cons,
      List.append_assoc]
    simp only [decListFieldAux]
    rw [decBytesField_enc]
    simp [ih]

theorem decListField_enc (xs : List Bytes) (rest : Bytes) :
    decListField (encListField xs ++ rest) = some (xs, rest) := by
  unfold decListField encListField
  rw [List.append_assoc, decNat_enc]
  simp [decListFieldAux_enc]

theorem decodeExtWitness_enc (e : ExtWitness) :
    decodeExtWitness (encodeExtWitness e) = some e := by
  have h3 : decListField (encListField e.state) = some (e.state, []) := by
    simpa using decListField_enc e.state []
  unfold decodeExtWitness encodeExtWitness
  rw [List.append_assoc, decBytesField_enc]
  simp [decListField_enc, h3]

theorem fromExt_toExt (w : Witness) (hnd : w.state.Nodup) :
    Witness.fromExtWitness (Witness.toExtWitness w) = w := by
  simp [Witness.fromExtWitness, Witness.toExtWitness, List.dedup_eq_self.mpr hnd]

theorem decodeWitnessRLP_enc (w : Witness) (hnd : w.state.Nodup) :
    decodeWitnessRLP (encodeExtWitness w.toExtWitness) = .ok w := by
  simp [decodeWitnessRLP, decodeExtWitness_enc, fromExt_toExt w hnd]

theorem unrle_rle (bs : Bytes) : unrle (rle bs) = bs := by
  induction bs with
  | nil => rfl
  | cons b rest ih =>
    cases hr : rle rest with
    | nil =>
      simp [rle, hr, unrle]
      have : unrle [] = [] := rfl
      rw [hr] at ih
      simpa [unrle] using ih.symm
    | cons p t =>
      obtain ⟨n, c⟩ := p
      rw [hr] at ih
      simp only [unrle, List.map_cons, List.flatten_cons] at ih
      by_cases hc : c = b
      · subst hc
        simp only [rle, hr]
        rw [if_pos trivial]
        simp only [unrle, List.map_cons, List.flatten_cons,
          List.replicate_succ, List.cons_append]
        rw [ih]
      · simp only [rle, hr]
        rw [if_neg hc]
        simp only [unrle, List.map_cons, List.flatten_cons,
          List.replicate_one, List.singleton_append]
        rw [ih]

theorem readPairs_flatten (ps : List (Nat × Nat)) :
    readPairs (flattenPairs ps) = some ps := by
  induction ps with
  | nil => rfl
  | cons p t ih =>
    obtain ⟨n, b⟩ := p
    simp [flattenPairs, readPairs] at *
    simp [ih]

theorem gunzip_gzipCompress (level : Nat) (data : Bytes) :
    gunzip (gzipCompress level data) = some data := by
  unfold gunzip gzipCompress
  rw [if_pos (by simp [gzipMagic])]
  have hdrop : (gzipMagic ++ flattenPairs (rle data)).drop 2 =
      flattenPairs (rle data) := by simp [gzipMagic]
  rw [hdrop, readPairs_flatten]
  simp [unrle_rle]

theorem optimize_state (w : Witness) :
    w.Optimize.state = w.state.filter (fun bs => !bs.isEmpty) := rfl

theorem optimize_of_no_empty (w : Witness) (h : ([] : Bytes) ∉ w.state) :
    w.Optimize = w := by
  have : w.state.filter (fun bs => !bs.isEmpty) = w.state := by
    apply List.filter_eq_self.mpr
    intro a ha
    cases a with
    | nil => exact absurd ha h
    | cons x t => rfl
  cases w
  simp [Witness.Optimize, this]

/-- Decoding inverts `decodeCompressedPayload` on both framings of a
correctly serialised witness. -/
theorem decodeCompressedPayload_roundtrip (m : Metrics) (w : Witness)
    (hnd : w.state.Nodup) (level : Nat) :
    decodeCompressedPayload m true (gzipCompress level (encodeExtWitness w.toExtWitness)) =
      .ok (w, { m with decompressionCount := m.decompressionCount + 1 }) ∧
    decodeCompressedPayload m false (encodeExtWitness w.toExtWitness) = .ok (w, m) := by
  constructor
  · simp [decodeCompressedPayload, gunzip_gzipCompress, decodeExtWitness_enc,
      fromExt_toExt w hnd]
  · simp [decodeCompressedPayload, decodeExtWitness_enc, fromExt_toExt w hnd]

/-- Both framings of `EncodeCompressed` decode back to the encoded witness
whenever the witness survives serialisation unchanged (no empty state entry
is dropped by `Optimize`). -/
theorem encodeCompressed_decodeCompressed (cfg : CompressionConfig)
    (m md : Metrics) (w : Witness) (hnd : w.state.Nodup)
    (hne : cfg.UseDeduplication = true → ([] : Bytes) ∉ w.state) :
    (Witness.DecodeCompressed md (w.EncodeCompressed cfg m).1).map Prod.fst =
      .ok w := by
  have hw' : (if cfg.UseDeduplication then w.Optimize else w) = w := by
    cases hdd : cfg.UseDeduplication with
    | false => simp
    | true => simp [optimize_of_no_empty w (hne hdd)]
  have hrt := decodeCompressedPayload_roundtrip md w hnd cfg.CompressionLevel
  simp only [Witness.EncodeCompressed, Witness.EncodeRLP, hw']
  by_cases h1 : cfg.Enabled ∧ (encodeExtWitness w.toExtWitness).length > cfg.Threshold
  · rw [if_pos h1]
    by_cases h2 : (gzipCompress cfg.CompressionLevel
        (encodeExtWitness w.toExtWitness)).length <
        (encodeExtWitness w.toExtWitness).length
    · rw [if_pos h2]
      simp [Witness.DecodeCompressed, hrt.1, Except.map]
    · rw [if_neg h2]
      simp [Witness.DecodeCompressed, encodeUncompressedOut, hrt.2, Except.map]
  · rw [if_neg h1]
    simp [Witness.DecodeCompressed, encodeUncompressedOut, hrt.2, Except.map]

theorem insertPage_perm (p : WitnessPageResponse) (l : List WitnessPageResponse) :
    (insertPage p l).Perm (p :: l) := by
  induction l with
  | nil => exact List.Perm.refl _
  | cons q t ih =>
    by_cases hlt : p.Page < q.Page
    · simp [insertPage, hlt]
    · simp only [insertPage, if_neg hlt]
      exact (ih.cons q).trans (List.Perm.swap p q t)

theorem sortPages_perm (l : List WitnessPageResponse) : (sortPages l).Perm l := by
  induction l with
  | nil => exact List.Perm.refl _
  | cons p t ih => exact (insertPage_perm p (sortPages t)).trans (ih.cons p)

theorem insertPage_sorted (p : WitnessPageResponse) (l : List WitnessPageResponse)
    (h : l.Pairwise pageLe) : (insertPage p l).Pairwise pageLe := by
  induction l with
  | nil => simp [insertPage]
  | cons q t ih =>
    by_cases hlt : p.Page < q.Page
    · simp only [insertPage, if_pos hlt]
      refine List.Pairwise.cons ?_ h
      intro x hx
      rcases List.mem_cons.mp hx with hx | hx
      · subst hx
        exact Nat.le_of_lt hlt
      · exact Nat.le_trans (Nat.le_of_lt hlt) (List.rel_of_pairwise_cons h hx)
    · simp only [insertPage, if_neg hlt]
      refine List.Pairwise.cons ?_ (ih h.of_cons)
      intro x hx
      rcases List.mem_cons.mp ((insertPage_perm p t).mem_iff.mp hx) with hx' | hx'
      · subst hx'
        exact Nat.le_of_not_lt hlt
      · exact List.rel_of_pairwise_cons h hx'

theorem sortPages_sorted (l : List WitnessPageResponse) :
    (sortPages l).Pairwise pageLe := by
  induction l with
  | nil => simp [sortPages]
  | cons p t ih => exact insertPage_sorted p (sortPages t) ih

/-- A permutation of a strictly page-sorted list is restored to it by
`sortPages`: the arrival order of pages is irrelevant. -/
theorem sortPages_eq_of_perm (ps qs : List WitnessPageResponse)
    (hperm : ps.Perm qs) (hq : qs.Pairwise pageLt) : sortPages ps = qs := by
  haveI : IsAntisymm WitnessPageResponse pageLt :=
    ⟨fun a b h1 h2 => absurd h1 (Nat.not_lt.mpr (Nat.le_of_lt h2))⟩
  have h1 : (sortPages ps).Perm qs := (sortPages_perm ps).trans hperm
  have hne : (sortPages ps).Pairwise (fun a b => a.Page ≠ b.Page) := by
    have hqne : qs.Pairwise (fun a b => a.Page ≠ b.Page) :=
      hq.imp (fun h => Nat.ne_of_lt h)
    exact (List.Perm.pairwise_iff (fun hab => Ne.symm hab) h1).mpr hqne
  have hlt : (sortPages ps).Pairwise pageLt := by
    have := (sortPages_sorted ps).and hne
    exact this.imp (fun h => Nat.lt_of_le_of_ne h.1 h.2)
  exact List.eq_of_perm_of_sorted h1 hlt hq

theorem pagesAux_map_data (h : WHash) (total : Nat) (cs : List Bytes) :
    ∀ i, (pagesAux h total i cs).map (fun p => p.Data) = cs := by
  induction cs with
  | nil => intro i; rfl
  | cons c t ih => intro i; simp [pagesAux, ih]

theorem pagesAux_page_ge (h : WHash) (total : Nat) (cs : List Bytes) :
    ∀ i, ∀ p ∈ pagesAux h total i cs, i ≤ p.Page := by
  induction cs with
  | nil => intro i p hp; cases hp
  | cons c t ih =>
    intro i p hp
    rcases List.mem_cons.mp hp with hp | hp
    · simp [hp]
    · exact Nat.le_trans (Nat.le_succ i) (ih (i + 1) p hp)

theorem pagesAux_pairwise (h : WHash) (total : Nat) (cs : List Bytes) :
    ∀ i, (pagesAux h total i cs).Pairwise pageLt := by
  induction cs with
  | nil => intro i; simp [pagesAux]
  | cons c t ih =>
    intro i
    refine List.Pairwise.cons ?_ (ih (i + 1))
    intro p hp
    exact Nat.lt_of_lt_of_le (Nat.lt_succ_self i) (pagesAux_page_ge h total t (i + 1) p hp)

/-- Sorting, concatenating and decoding a full set of pages restores the
witness whose canonical bytes were split, for every arrival order. -/
theorem reconstructWitness_of_perm (w : Witness) (hnd : w.state.Nodup)
    (h : WHash) (chunks : List Bytes)
    (hjoin : chunks.flatten = encodeExtWitness w.toExtWitness)
    (ps : List WitnessPageResponse)
    (hperm : ps.Perm (pagesOfChunks h chunks)) :
    reconstructWitness ps = .ok w := by
  have hsort : sortPages ps = pagesOfChunks h chunks :=
    sortPages_eq_of_perm ps (pagesOfChunks h chunks) hperm
      (pagesAux_pairwise h chunks.length chunks 0)
  simp only [reconstructWitness, hsort, pagesOfChunks,
    pagesAux_map_data h chunks.length chunks 0, hjoin]
  exact decodeWitnessRLP_enc w hnd

theorem encodeCompressed_metricsInv (cfg : CompressionConfig) (m : Metrics)
    (w : Witness) (h : metricsInv m) :
    metricsInv ((w.EncodeCompressed cfg m).2.1) := by
  unfold metricsInv at *
  simp only [Witness.EncodeCompressed]
  by_cases h1 : cfg.Enabled = true ∧ (w.EncodeRLP cfg).1.length > cfg.Threshold
  · rw [if_pos h1]
    by_cases h2 : (gzipCompress cfg.CompressionLevel (w.EncodeRLP cfg).1).length <
        (w.EncodeRLP cfg).1.length
    · rw [if_pos h2]
      simp only
      omega
    · rw [if_neg h2]
      simp only [encodeUncompressedOut]
      omega
  · rw [if_neg h1]
    simp only [encodeUncompressedOut]
    omega

theorem encodeSeq_metricsInv (ops : List (CompressionConfig × Witness)) :
    ∀ m : Metrics, metricsInv m → metricsInv (encodeSeq m ops) := by
  induction ops with
  | nil => intro m h; exact h
  | cons op t ih =>
    intro m h
    exact ih _ (encodeCompressed_metricsInv op.1 m op.2 h)

theorem encodeCompressed_compressionCount (cfg : CompressionConfig)
    (m : Metrics) (w : Witness) (ht : triggersCompression cfg w) :
    ((w.EncodeCompressed cfg m).2.1).compressionCount = m.compressionCount + 1 := by
  obtain ⟨h1, h2, h3⟩ := ht
  simp only [Witness.EncodeCompressed]
  rw [if_pos ⟨h1, h2⟩, if_pos h3]

theorem decodeCompressedPayload_metrics (m : Metrics) (c : Bool) (wd : Bytes)
    (q : Witness × Metrics) (h : decodeCompressedPayload m c wd = .ok q) :
    q.2 = m ∨ q.2 = { m with decompressionCount := m.decompressionCount + 1 } := by
  unfold decodeCompressedPayload at h
  cases c with
  | false =>
    simp only [Bool.false_eq_true, if_false] at h
    cases hdec : decodeExtWitness wd with
    | none => rw [hdec] at h; cases h
    | some ext =>
      rw [hdec] at h
      cases h
      exact Or.inl rfl
  | true =>
    simp only [if_true] at h
    cases hgz : gunzip wd with
    | none => rw [hgz] at h; cases h
    | some rlpData =>
      rw [hgz] at h
      simp only at h
      cases hdec : decodeExtWitness rlpData with
      | none => rw [hdec] at h; cases h
      | some ext =>
        rw [hdec] at h
        cases h
        exact Or.inr rfl

theorem decodeCompressed_compressionCount (m : Metrics) (data : Bytes)
    (q : Witness × Metrics) (h : Witness.DecodeCompressed m data = .ok q) :
    q.2.compressionCount = m.compressionCount := by
  cases data with
  | nil => cases h
  | cons b rest =>
    have := decodeCompressedPayload_metrics m (decide (b = 1)) rest q h
    rcases this with h' | h' <;> rw [h']

theorem roundTripSeq_compressionCount (ops : List (CompressionConfig × Witness)) :
    ∀ m : Metrics, (∀ p ∈ ops, triggersCompression p.1 p.2) →
      (roundTripSeq m ops).compressionCount = m.compressionCount + ops.length := by
  induction ops with
  | nil => intro m _; simp [roundTripSeq]
  | cons op t ih =>
    intro m hall
    have hhead : triggersCompression op.1 op.2 := hall op (List.mem_cons_self op t)
    have htail : ∀ p ∈ t, triggersCompression p.1 p.2 :=
      fun p hp => hall p (List.mem_cons_of_mem op hp)
    have henc := encodeCompressed_compressionCount op.1 m op.2 hhead
    simp only [roundTripSeq]
    cases hdec : Witness.DecodeCompressed ((op.2.EncodeCompressed op.1 m).2.1)
        ((op.2.EncodeCompressed op.1 m).1) with
    | ok q =>
      have hq := decodeCompressed_compressionCount _ _ _ hdec
      rw [ih q.2 htail, hq, henc]
      simp only [List.length_cons]
      push_cast
      ring
    | error e =>
      rw [ih _ htail, henc]
      simp only [List.length_cons]
      push_cast
      ring

/-- An uncompressed canonical body never begins with the gzip magic: its
first byte is a length-field byte (0 or 1), never 0x1f. -/
theorem gunzip_encodeExtWitness (e : ExtWitness) :
    gunzip (encodeExtWitness e) = none := by
  have hhead : (encodeExtWitness e).head? = some 0 ∨
      (encodeExtWitness e).head? = some 1 := by
    unfold encodeExtWitness encBytesField encNat
    cases e.context with
    | nil => simp
    | cons a t => simp [List.replicate_succ]
  unfold gunzip
  rw [if_neg ?hne]
  case hne =>
    intro hcontra
    have h31 : (encodeExtWitness e).head? = some 31 := by
      cases hbs : encodeExtWitness e with
      | nil => rw [hbs] at hcontra; simp [gzipMagic] at hcontra
      | cons b rest =>
        rw [hbs] at hcontra
        simp [gzipMagic, List.take] at hcontra
        simp [hcontra.1]
    rcases hhead with h0 | h0 <;> rw [h0] at h31 <;> simp at h31

/-! ### Claim theorems. -/

/-- C1: for one witness hash whose serialised bytes are split into N
contiguous pages, receiving all N pages in any arrival order makes
`reconstructWitness` sort them into ascending pageIndex order, concatenate
their payloads and RLP-decode the concatenation, producing a witness equal
to the one whose canonical bytes were split; the arrival order (the
permutation) has no effect on the result. -/
theorem claim_C1_reassembly (w : Witness) (hnd : w.state.Nodup) (h : WHash)
    (chunks : List Bytes)
    (hjoin : chunks.flatten = encodeExtWitness w.toExtWitness)
    (ps : List WitnessPageResponse)
    (hperm : ps.Perm (pagesOfChunks h chunks)) :
    reconstructWitness ps = .ok w :=
  reconstructWitness_of_perm w hnd h chunks hjoin ps hperm

/-- Witness for C1: a three-page split received in the order 2, 0, 1. -/
theorem claim_C1_reassembly_witness :
    reconstructWitness
        [⟨0, 2, 3, [0, 2]⟩, ⟨0, 0, 3, [0, 0]⟩, ⟨0, 1, 3, [1, 0, 1]⟩] =
      .ok (Witness.mk [] [] [[2]]) :=
  claim_C1_reassembly (Witness.mk [] [] [[2]]) (by decide) 0
    [[0, 0], [1, 0, 1], [0, 2]] (by decide) _ (by decide)

/-- C2 (amended): for every witness whose state does not contain the empty
byte string (or with deduplication disabled) and every configuration with
gzip level 1..9, `DecodeCompressed` of the bytes produced by
`EncodeCompressed` yields a witness equal to the encoded one, on both the
compressed (marker 0x01) and the uncompressed (marker 0x00) path.  The
original claim fails for witnesses holding the empty state entry when
`UseDeduplication` is on, because `Optimize` drops that entry before
serialisation (see the counterexample). -/
theorem claim_C2_roundtrip (cfg : CompressionConfig) (m md : Metrics)
    (w : Witness) (hnd : w.state.Nodup)
    (_hlvl1 : 1 ≤ cfg.CompressionLevel) (_hlvl9 : cfg.CompressionLevel ≤ 9)
    (hne : cfg.UseDeduplication = true → ([] : Bytes) ∉ w.state) :
    (Witness.DecodeCompressed md (w.EncodeCompressed cfg m).1).map Prod.fst =
      .ok w :=
  encodeCompressed_decodeCompressed cfg m md w hnd hne

/-- Witness for C2 at a witness large enough to take the compressed path. -/
theorem claim_C2_roundtrip_witness :
    (Witness.DecodeCompressed zeroMetrics
        ((Witness.mk [] [] [List.replicate 300 7]).EncodeCompressed
          ⟨true, 10, 1, true⟩ zeroMetrics).1).map Prod.fst =
      .ok (Witness.mk [] [] [List.replicate 300 7]) :=
  claim_C2_roundtrip ⟨true, 10, 1, true⟩ zeroMetrics zeroMetrics
    (Witness.mk [] [] [List.replicate 300 7]) (by decide) (by decide) (by decide)
    (fun _ => by decide)

/-- Counterexample to C2 as stated: with `UseDeduplication = true` (part of
the default configuration) and gzip level 6, a witness whose state set is
exactly the empty byte string decodes to a witness with an empty state set:
`Optimize` removed the entry before serialisation, so the decoded witness is
not equal to the original (their state sets differ). -/
theorem claim_C2_counterexample :
    ((Witness.DecodeCompressed zeroMetrics
        ((Witness.mk [] [] [[]]).EncodeCompressed
          ⟨true, compressionThreshold, 6, true⟩ zeroMetrics).1).map Prod.fst =
      .ok (Witness.mk [] [] [])) ∧
    (Witness.mk [] [] [] : Witness).state.toFinset ≠
      (Witness.mk [] [] [[]] : Witness).state.toFinset :=
  ⟨rfl, by decide⟩

/-- C3: a failed page is rescheduled exactly when its incremented failure
count is at most `DefaultMaxPagesRequestRetries` = 2.  Over `n` consecutive
failures of one page, the k-th failure (0-based) triggers a resubmission iff
`k + 1 ≤ 2`, the entry ends with fail count `n` and a consumed retry flag,
and the number of retries granted is `min n 2` — so a page failing twice is
granted both retries (its third, successful attempt happens), while a page
failing three times is granted no further attempt after the third failure. -/
theorem claim_C3_retry_ceiling : ∀ n : Nat,
    (failTrace n).1 = ⟨n, false⟩ ∧
    (failTrace n).2 =
      (List.range n).map (fun k => decide (k + 1 ≤ DefaultMaxPagesRequestRetries)) ∧
    (failTrace n).2.count true = min n DefaultMaxPagesRequestRetries := by
  intro n
  induction n with
  | zero => exact ⟨rfl, rfl, rfl⟩
  | succ n ih =>
    obtain ⟨h1, h2, h3⟩ := ih
    have hcycle : failCycle ⟨n, false⟩ =
        (⟨n + 1, false⟩, decide (n + 1 ≤ DefaultMaxPagesRequestRetries)) := by
      by_cases h : n + 1 ≤ DefaultMaxPagesRequestRetries
      · simp [failCycle, recordFailure, retryPass, h]
      · simp [failCycle, recordFailure, retryPass, h]
    have hstep : failTrace (n + 1) =
        (⟨n + 1, false⟩,
         (failTrace n).2 ++ [decide (n + 1 ≤ DefaultMaxPagesRequestRetries)]) := by
      simp [failTrace, h1, hcycle]
    refine ⟨by rw [hstep], ?_, ?_⟩
    · rw [hstep, h2, List.range_succ]
      simp
    · rw [hstep]
      simp only [List.count_append, h3]
      by_cases h : n + 1 ≤ DefaultMaxPagesRequestRetries
      · simp only [DefaultMaxPagesRequestRetries] at *
        simp [h, List.count_cons]
        omega
      · simp only [DefaultMaxPagesRequestRetries] at *
        simp [h, List.count_cons]
        omega

/-- C4 (amended): `receiveWitnessPage` performs no totalPages-agreement
check and never fails a witness on disagreement.  A non-empty page that does
not itself end the call in error always overwrites `witTotalPages[hash]`
with its own `TotalPages`, whatever value an earlier page established, and a
witness is reconstructed (hence included in the aggregate) exactly when the
received count reaches the arriving page's `TotalPages`, the previously
stored value playing no role. -/
theorem claim_C4_totalPages_overwrite (st : RecvState)
    (page : WitnessPageResponse) (hd : page.Data.length ≠ 0) :
    ((processPage st page).2 = false →
      (processPage st page).1.witTotalPages page.Hash = some page.TotalPages) ∧
    (∀ w, reconstructWitness (st.receivedWitPages page.Hash ++ [page]) = .ok w →
      (st.receivedWitPages page.Hash ++ [page]).length = page.TotalPages →
      (processPage st page).1.reconstructedWitness page.Hash = some w) := by
  have hd' : ¬ page.Data = [] := fun hnil => hd (by simp [hnil])
  constructor
  · intro hok
    by_cases hlen : (st.receivedWitPages page.Hash).length + 1 = page.TotalPages
    · cases hrec : reconstructWitness (st.receivedWitPages page.Hash ++ [page]) with
      | error e => simp [processPage, hd', hlen, hrec] at hok
      | ok w => simp [processPage, hd', hlen, hrec]
    · simp [processPage, hd', hlen]
  · intro w hrec hlen
    have hlen' : (st.receivedWitPages page.Hash).length + 1 = page.TotalPages := by
      simpa using hlen
    simp [processPage, hd', hlen', hrec]

/-- Witness for C4 (amended) at a first page announcing five pages. -/
theorem claim_C4_totalPages_overwrite_witness :
    (processPage emptyRecvState ⟨0, 0, 5, [7]⟩).1.witTotalPages 0 = some 5 :=
  (claim_C4_totalPages_overwrite emptyRecvState ⟨0, 0, 5, [7]⟩ (by decide)).1 rfl

/-- Counterexample to C4 as stated: page 0 establishes `totalPages = 5`;
page 1 then reports `totalPages = 2`.  The claim requires the witness to be
treated as failed immediately and excluded from the aggregate; instead the
call succeeds, the witness is reconstructed (the completion test uses the
newest page's value) and `witTotalPages` is silently overwritten to 2. -/
theorem claim_C4_counterexample :
    ((processPages emptyRecvState
        [⟨0, 0, 5, [0, 0, 1, 0]⟩, ⟨0, 1, 2, [1, 0, 2]⟩]).2 = false) ∧
    ((processPages emptyRecvState
        [⟨0, 0, 5, [0, 0, 1, 0]⟩, ⟨0, 1, 2, [1, 0, 2]⟩]).1.reconstructedWitness 0 =
      some (Witness.mk [] [] [[2]])) ∧
    ((processPages emptyRecvState
        [⟨0, 0, 5, [0, 0, 1, 0]⟩, ⟨0, 1, 2, [1, 0, 2]⟩]).1.witTotalPages 0 =
      some 2) :=
  ⟨rfl, rfl, rfl⟩

/-- C5 (amended): a page response whose payload is zero bytes long is
silently skipped by the `continue` of the page loop: it is not stored, it is
not counted against any retry budget, and no re-request is flagged — the
whole reception state and the failure map are left unchanged. -/
theorem claim_C5_empty_payload (st : RecvState) (page : WitnessPageResponse)
    (hd : page.Data.length = 0) :
    processPage st page = (st, false) ∧
    ∀ (bst : BatchState) (req : List WitnessPageRequest),
      receiveWitnessPage bst req (some [page]) = bst := by
  constructor
  · simp [processPage, hd]
  · intro bst req
    simp [receiveWitnessPage, processPages, processPage, hd]

/-- Witness for C5 (amended) at a concrete zero-byte page. -/
theorem claim_C5_empty_payload_witness :
    processPage emptyRecvState ⟨0, 0, 1, []⟩ = (emptyRecvState, false) :=
  (claim_C5_empty_payload emptyRecvState ⟨0, 0, 1, []⟩ rfl).1

/-- Counterexample to C5 as stated: after a response whose only page has an
empty payload, the failure entry of that (hash, page) still has fail count 0
and no retry flag — the empty payload was not counted against the retry
budget and no re-request was scheduled — and the page was not accepted
either. -/
theorem claim_C5_counterexample :
    ((receiveWitnessPage emptyBatchState [⟨0, 0⟩]
        (some [⟨0, 0, 1, []⟩])).failedRequests 0 0 = ⟨0, false⟩) ∧
    ((receiveWitnessPage emptyBatchState [⟨0, 0⟩]
        (some [⟨0, 0, 1, []⟩])).recv.receivedWitPages 0 = []) :=
  ⟨rfl, rfl⟩

/-- C6 (amended): `DecodeCompressed` fails on a corrupt gzip stream behind
marker 0x01 and on a malformed canonical tail, and flipping an uncompressed
marker 0x00 to 0x01 is always detected (a canonical body never begins with
the gzip magic); but the marker byte itself is never validated: every byte
other than 0x01 selects the uncompressed path, so a single-bit corruption of
marker 0x00 into any value other than 0x01 is not a decode failure (see the
counterexample). -/
theorem claim_C6_decode_failures :
    (∀ (m : Metrics) (wd : Bytes), gunzip wd = none →
      Witness.DecodeCompressed m (1 :: wd) = .error "gzip: malformed stream") ∧
    (∀ (m : Metrics) (b : Nat) (wd : Bytes), b ≠ 1 → decodeExtWitness wd = none →
      Witness.DecodeCompressed m (b :: wd) = .error "rlp: malformed witness") ∧
    (∀ (m : Metrics) (e : ExtWitness),
      Witness.DecodeCompressed m (1 :: encodeExtWitness e) =
        .error "gzip: malformed stream") ∧
    (∀ (m : Metrics) (b : Nat) (wd : Bytes), b ≠ 1 →
      Witness.DecodeCompressed m (b :: wd) = decodeCompressedPayload m false wd) := by
  refine ⟨?_, ?_, ?_, ?_⟩
  · intro m wd hgz
    simp [Witness.DecodeCompressed, decodeCompressedPayload, hgz]
  · intro m b wd hb hdec
    simp [Witness.DecodeCompressed, decodeCompressedPayload, hb, hdec]
  · intro m e
    simp [Witness.DecodeCompressed, decodeCompressedPayload,
      gunzip_encodeExtWitness]
  · intro m b wd hb
    simp [Witness.DecodeCompressed, hb]

/-- Witness for C6 (amended) at concrete malformed inputs. -/
theorem claim_C6_decode_failures_witness :
    (Witness.DecodeCompressed zeroMetrics [1, 5] =
      .error "gzip: malformed stream") ∧
    (Witness.DecodeCompressed zeroMetrics [2, 1] =
      .error "rlp: malformed witness") ∧
    (Witness.DecodeCompressed zeroMetrics (2 :: [0, 0, 0]) =
      decodeCompressedPayload zeroMetrics false [0, 0, 0]) :=
  ⟨claim_C6_decode_failures.1 zeroMetrics [5] (by decide),
   claim_C6_decode_failures.2.1 zeroMetrics 2 [1] (by decide) (by decide),
   claim_C6_decode_failures.2.2.2 zeroMetrics 2 [0, 0, 0] (by decide)⟩

/-- Counterexample to C6 as stated: the encoder emits marker 0x00 for this
witness; corrupting that marker in its second-lowest bit (0x00 to 0x02 — a
single-bit corruption) does not lead to a decode failure: the input decodes
successfully to the very same witness, because any marker other than 0x01 is
treated as the uncompressed marker. -/
theorem claim_C6_counterexample :
    (((Witness.mk [] [] [[3]]).EncodeCompressed DefaultCompressionConfig
        zeroMetrics).1 =
      0 :: encodeExtWitness (Witness.mk [] [] [[3]]).toExtWitness) ∧
    (Witness.DecodeCompressed zeroMetrics
        (2 :: encodeExtWitness (Witness.mk [] [] [[3]]).toExtWitness) =
      .ok (Witness.mk [] [] [[3]], zeroMetrics)) :=
  ⟨rfl, rfl⟩

/-- C8: the second call to `Close` on an `ethWitRequest` is not permitted:
`Close` unconditionally runs `close(r.Request.Cancel)`, and closing an
already-closed Go channel panics (modelled as the error value), so
cancellation is not idempotent as the specification requires. -/
theorem claim_C8_close_twice_panics :
    (EthWitRequest.Close ⟨false, []⟩ = .ok ⟨true, []⟩) ∧
    (EthWitRequest.Close ⟨true, []⟩ = .error "close of closed channel") :=
  ⟨rfl, rfl⟩

/-- C9: starting from zeroed metrics, after any sequence of
`EncodeCompressed` calls the gauge `space_saved_bytes` equals
`total_original_size` minus `total_compressed_size` (both the compressed and
uncompressed branch preserve the equation), and after N encode/decode
round-trips that each trigger compression the `compression_count` counter
equals N. -/
theorem claim_C9_metrics_consistency :
    (∀ ops : List (CompressionConfig × Witness),
      (CompressionStats (encodeSeq zeroMetrics ops)).space_saved_bytes =
        (CompressionStats (encodeSeq zeroMetrics ops)).total_original_size -
          (CompressionStats (encodeSeq zeroMetrics ops)).total_compressed_size) ∧
    (∀ ops : List (CompressionConfig × Witness),
      (∀ p ∈ ops, triggersCompression p.1 p.2) →
      (CompressionStats (roundTripSeq zeroMetrics ops)).compression_count =
        ops.length) := by
  constructor
  · intro ops
    have h := encodeSeq_metricsInv ops zeroMetrics (by simp [metricsInv, zeroMetrics])
    simpa [CompressionStats, metricsInv] using h
  · intro ops hall
    have h := roundTripSeq_compressionCount ops zeroMetrics hall
    simpa [CompressionStats, zeroMetrics] using h

set_option maxRecDepth 20000 in
/-- Witness for C9: two round-trips that both take the compressed branch. -/
theorem claim_C9_metrics_consistency_witness :
    (CompressionStats (roundTripSeq zeroMetrics
        [(⟨true, 10, 1, true⟩, Witness.mk [] [] [List.replicate 300 7]),
         (⟨true, 10, 1, true⟩, Witness.mk [] [] [List.replicate 300 7])])).compression_count =
      2 :=
  claim_C9_metrics_consistency.2
    [(⟨true, 10, 1, true⟩, Witness.mk [] [] [List.replicate 300 7]),
     (⟨true, 10, 1, true⟩, Witness.mk [] [] [List.replicate 300 7])]
    (by decide)

/-- C10: `DecodeCompressed` of the empty byte sequence is the "empty data"
error (no witness is produced, so the receiver is untouched); for every
input of length at least one, exactly the first byte is consumed as the
marker — the rest is decoded as payload, and any two markers other than
0x01 decode a given payload identically. -/
theorem claim_C10_empty_and_marker (m : Metrics) :
    (Witness.DecodeCompressed m [] = .error "empty data") ∧
    (∀ (b : Nat) (rest : Bytes),
      Witness.DecodeCompressed m (b :: rest) =
        decodeCompressedPayload m (decide (b = 1)) rest) ∧
    (∀ (b b' : Nat) (rest : Bytes), b ≠ 1 → b' ≠ 1 →
      Witness.DecodeCompressed m (b :: rest) =
        Witness.DecodeCompressed m (b' :: rest)) := by
  refine ⟨rfl, fun b rest => rfl, ?_⟩
  intro b b' rest hb hb'
  simp [Witness.DecodeCompressed, hb, hb']

/-- Witness for C10: markers 0x02 and 0x03 decode a payload identically. -/
theorem claim_C10_empty_and_marker_witness :
    Witness.DecodeCompressed zeroMetrics (2 :: [0, 0, 0]) =
      Witness.DecodeCompressed zeroMetrics (3 :: [0, 0, 0]) :=
  (claim_C10_empty_and_marker zeroMetrics).2.2 2 3 [0, 0, 0] (by decide) (by decide)

end BorWitness
